import Mathlib

/-!
Shallow embedding of the core of `src/main.go` (a Gin-based movie-catalog
translation gateway) together with the third-party functions it calls:
`sort.Slice` from Go's standard library (the pattern-defeating quicksort of
Go ≥ 1.19), `fuzzy.RankMatch` from lithammer/fuzzysearch, Go's
`regexp.ReplaceAllString` specialised to the fixed dotted-quad pattern, and
`strings.ReplaceAll` / `strings.TrimSpace` / `strings.ToLower`.

Strings are modelled as `List Char` (Go strings are UTF-8 byte sequences;
byte lengths are recovered where the source compares them via `utf8CharLen`).
HTML documents are modelled at the level goquery delivers them to the code:
a listing page is the list of matched `#UIMovieSummary > ul > li` items with
the three text/attribute fields the code reads, a watch page is the record
of the four text/attribute fields the code reads.  `Attr` returns the empty
string for a missing attribute, modelled by `Option` plus `attrOrEmpty`.
-/

namespace ThiraiGateway

/-- Go `strings.HasPrefix p` on rune lists (second argument is the pattern). -/
def startsWith : List Char → List Char → Bool
  | _, [] => true
  | [], _ :: _ => false
  | c :: cs, p :: ps => c = p && startsWith cs ps

/-- The set accepted by Go `unicode.IsSpace` (the White_Space property). -/
def goIsSpace (c : Char) : Bool :=
  c = ' ' || c = '\t' || c = '\n' || c.val = 11 || c.val = 12 || c = '\r' ||
  c.val = 0x85 || c.val = 0xA0 || c.val = 0x1680 ||
  (0x2000 ≤ c.val && c.val ≤ 0x200A) ||
  c.val = 0x2028 || c.val = 0x2029 || c.val = 0x202F || c.val = 0x205F || c.val = 0x3000

/-- Go `strings.TrimSpace`: drop leading and trailing white space. -/
def trimSpace (s : List Char) : List Char :=
  ((s.dropWhile goIsSpace).reverse.dropWhile goIsSpace).reverse

/-- Go `strings.ToLower`, restricted to the ASCII simple case mapping
(`Char.toLower` lowers exactly the range A–Z); faithful for the ASCII
data this service handles. -/
def toLowerGo (s : List Char) : List Char := s.map Char.toLower

/-- Number of bytes of the UTF-8 encoding of a rune, as `utf8.RuneLen`. -/
def utf8CharLen (c : Char) : Nat :=
  if c.val < 0x80 then 1 else if c.val < 0x800 then 2
  else if c.val < 0x10000 then 3 else 4

/-- Byte length of a Go string (`len(s)`), from its rune list. -/
def byteLen (s : List Char) : Nat := (s.map utf8CharLen).sum

/-- Inner loop of fuzzysearch `rank`: scan `target` for the first rune
equal to `c`, counting the runes skipped before it; return the skip count
and the remainder of `target` after the matched rune. -/
def findSkip (c : Char) : List Char → Option (Nat × List Char)
  | [] => none
  | x :: xs =>
      if x = c then some (0, xs)
      else (findSkip c xs).map (fun p => (p.1 + 1, p.2))

/-- Outer loop of fuzzysearch `rank`: consume the source runes in order as a
subsequence of the target, accumulating the number of skipped target runes;
after the source is exhausted the remaining target runes are added.
Returns `none` when some source rune cannot be found (no fuzzy match). -/
def rankLoop : List Char → List Char → Nat → Option Nat
  | [], target, runeDiff => some (runeDiff + target.length)
  | r1 :: rest, target, runeDiff =>
      match findSkip r1 target with
      | some (skipped, t) => rankLoop rest t (runeDiff + skipped)
      | none => none

/-- Model of `fuzzy.RankMatch source target` from lithammer/fuzzysearch: `-1` when
the source is not an in-order (not necessarily contiguous) subsequence of
the target, the rune surplus of the target (equal to their Levenshtein
distance in that case) when it is.  Byte lengths are compared first as in
the source (`lenDiff := len(target) - len(source)`). -/
def rankMatchGo (source target : List Char) : Int :=
  if byteLen target < byteLen source then -1
  else if byteLen target = byteLen source ∧ source = target then 0
  else
    match rankLoop source target 0 with
    | some d => (d : Int)
    | none => -1

/-- A movie record as extracted by `scrapeEinthusan` (`MovieEntry` in the
source, serialised as `img_url`, `page_url`, `title`). -/
structure MovieEntry where
  imgUrl : List Char
  pageUrl : List Char
  title : List Char
deriving DecidableEq, Repr

instance : Inhabited MovieEntry := ⟨⟨[], [], []⟩⟩

/-- The comparator passed to `sort.Slice` in the `/search` handler:
`fuzzy.RankMatch(strings.ToLower(query), strings.ToLower(title_i)) >
 fuzzy.RankMatch(strings.ToLower(query), strings.ToLower(title_j))`. -/
def searchLess (query : List Char) (x y : MovieEntry) : Bool :=
  rankMatchGo (toLowerGo query) (toLowerGo x.title) >
    rankMatchGo (toLowerGo query) (toLowerGo y.title)

/-! ### Go `sort.Slice` (pattern-defeating quicksort, Go ≥ 1.19)

The slice is a `List α`; `data.Less i j` reads the current list, as the Go
closure over the mutating slice does, and `data.Swap i j` exchanges two
positions.  Loops are run on explicit fuel that is always sufficient for
the concrete evaluations below. -/

/-- Model of `data.Less i j` for the closure comparator: compare current elements. -/
def lessAt (cmp : α → α → Bool) [Inhabited α] (l : List α) (i j : Nat) : Bool :=
  cmp (l.getD i default) (l.getD j default)

/-- Model of `data.Swap i j`. -/
def swapAt (l : List α) (i j : Nat) : List α :=
  match l.get? i, l.get? j with
  | some x, some y => (l.set i y).set j x
  | _, _ => l

/-- Inner loop of `insertionSort_func`:
`for j := i; j > a && data.Less(j, j-1); j-- { data.Swap(j, j-1) }`. -/
def insInner (cmp : α → α → Bool) [Inhabited α] (a : Nat) : Nat → List α → List α
  | 0, l => l
  | j + 1, l =>
      if a ≤ j && lessAt cmp l (j + 1) j then insInner cmp a j (swapAt l (j + 1) j)
      else l

/-- Outer loop of `insertionSort_func`, `i` running from `a+1` up to `b`. -/
def insLoop (cmp : α → α → Bool) [Inhabited α] (a b : Nat) : Nat → Nat → List α → List α
  | 0, _, l => l
  | fuel + 1, i, l =>
      if i < b then insLoop cmp a b fuel (i + 1) (insInner cmp a i l) else l

/-- Model of `insertionSort_func(data, a, b)`: sort the half-open range `[a, b)`. -/
def insertionSortG (cmp : α → α → Bool) [Inhabited α] (a b : Nat) (l : List α) : List α :=
  insLoop cmp a b (b - a) (a + 1) l

/-- Model of `siftDown_func(data, lo, hi, first)` (fuel-bounded loop). -/
def siftDown (cmp : α → α → Bool) [Inhabited α] (hi first : Nat) : Nat → Nat → List α → List α
  | 0, _, l => l
  | fuel + 1, root, l =>
      let child := 2 * root + 1
      if child ≥ hi then l
      else
        let child := if child + 1 < hi && lessAt cmp l (first + child) (first + child + 1)
          then child + 1 else child
        if !(lessAt cmp l (first + root) (first + child)) then l
        else siftDown cmp hi first fuel child (swapAt l (first + root) (first + child))

/-- Heap construction loop of `heapSort_func`: `i := (hi-1)/2` down to `0`. -/
def heapBuild (cmp : α → α → Bool) [Inhabited α] (hi first : Nat) : Nat → List α → List α
  | 0, l => l
  | i + 1, l => heapBuild cmp hi first i (siftDown cmp hi first hi i l)

/-- Pop loop of `heapSort_func`: `i := hi-1` down to `0`, swapping the top
out and restoring the heap on the shortened range. -/
def heapPop (cmp : α → α → Bool) [Inhabited α] (first : Nat) : Nat → List α → List α
  | 0, l => l
  | i + 1, l => heapPop cmp first i (siftDown cmp i first i 0 (swapAt l first (first + i)))

/-- Model of `heapSort_func(data, a, b)`. -/
def heapSortG (cmp : α → α → Bool) [Inhabited α] (a b : Nat) (l : List α) : List α :=
  let hi := b - a
  heapPop cmp a hi (heapBuild cmp hi a ((hi - 1) / 2 + 1) l)

/-- Model of `reverseRange_func(data, a, b)` (fuel-bounded two-pointer loop). -/
def revRange (cmp? : Unit) : Nat → Nat → Nat → List α → List α
  | 0, _, _, l => l
  | fuel + 1, i, j, l =>
      if i < j then revRange cmp? fuel (i + 1) (j - 1) (swapAt l i j) else l

/-- Model of `reverseRange_func` entry point. -/
def reverseRangeG (a b : Nat) (l : List α) : List α := revRange () b a (b - 1) l

/-- One step of the `xorshift` PRNG used by `breakPatterns_func`
(64-bit: `r ^= r<<13; r ^= r>>7; r ^= r<<17`). -/
def xorshiftNext (r : Nat) : Nat :=
  let m := 2 ^ 64
  let r := (r ^^^ (r <<< 13 % m)) % m
  let r := (r ^^^ (r >>> 7)) % m
  let r := (r ^^^ (r <<< 17 % m)) % m
  r

/-- Model of `bits.Len(uint(n))`: position of the highest set bit plus one. -/
def bitsLen (n : Nat) : Nat := if n = 0 then 0 else Nat.log2 n + 1

/-- Model of `breakPatterns_func(data, a, b)`: swap three elements around the middle
with pseudo-random ones to break quicksort-adverse patterns. -/
def breakPatternsG (a b : Nat) (l : List α) : List α :=
  let length := b - a
  if length ≥ 8 then
    let modulus := 2 ^ bitsLen length
    let idx := a + (length / 4) * 2 - 1
    let r1 := xorshiftNext length
    let o1 := r1 % modulus
    let o1 := if o1 ≥ length then o1 - length else o1
    let l := swapAt l (idx - 1) (a + o1)
    let r2 := xorshiftNext r1
    let o2 := r2 % modulus
    let o2 := if o2 ≥ length then o2 - length else o2
    let l := swapAt l idx (a + o2)
    let r3 := xorshiftNext r2
    let o3 := r3 % modulus
    let o3 := if o3 ≥ length then o3 - length else o3
    swapAt l (idx + 1) (a + o3)
  else l

/-- Model of `order2_func(data, a, b, &swaps)`: return the two indices with the
smaller-ranked first, counting a virtual swap when they are exchanged. -/
def order2G (cmp : α → α → Bool) [Inhabited α] (l : List α) (a b swaps : Nat) :
    Nat × Nat × Nat :=
  if lessAt cmp l b a then (b, a, swaps + 1) else (a, b, swaps)

/-- Model of `median_func(data, a, b, c, &swaps)`. -/
def medianG (cmp : α → α → Bool) [Inhabited α] (l : List α) (a b c swaps : Nat) :
    Nat × Nat :=
  let (a1, b1, s1) := order2G cmp l a b swaps
  let (b2, _, s2) := order2G cmp l b1 c s1
  let (_, b3, s3) := order2G cmp l a1 b2 s2
  (b3, s3)

/-- Model of `medianAdjacent_func(data, a, &swaps)`: median of `a-1`, `a`, `a+1`. -/
def medianAdjacentG (cmp : α → α → Bool) [Inhabited α] (l : List α) (x swaps : Nat) :
    Nat × Nat :=
  medianG cmp l (x - 1) x (x + 1) swaps

/-- Translate the `swaps` count into the `sortedHint`:
`0 ↦ increasingHint (1)`, `maxSwaps = 12 ↦ decreasingHint (2)`,
otherwise `unknownHint (0)`. -/
def hintOf (swaps : Nat) : Nat :=
  if swaps = 0 then 1 else if swaps = 12 then 2 else 0

/-- Model of `choosePivot_func(data, a, b)`: returns `(pivot index, hint)`. -/
def choosePivotG (cmp : α → α → Bool) [Inhabited α] (l : List α) (a b : Nat) : Nat × Nat :=
  let length := b - a
  let i := a + (length / 4) * 1
  let j := a + (length / 4) * 2
  let k := a + (length / 4) * 3
  if length ≥ 8 then
    if length ≥ 50 then
      let (i1, s1) := medianAdjacentG cmp l i 0
      let (j1, s2) := medianAdjacentG cmp l j s1
      let (k1, s3) := medianAdjacentG cmp l k s2
      let (jm, s4) := medianG cmp l i1 j1 k1 s3
      (jm, hintOf s4)
    else
      let (jm, s) := medianG cmp l i j k 0
      (jm, hintOf s)
  else (j, hintOf 0)

/-- Model of `for i <= j && data.Less(i, a) { i++ }` with `j`, `a` fixed. -/
def scanUp (cmp : α → α → Bool) [Inhabited α] (l : List α) (aIdx j : Nat) :
    Nat → Nat → Nat
  | 0, i => i
  | fuel + 1, i =>
      if i ≤ j && lessAt cmp l i aIdx then scanUp cmp l aIdx j fuel (i + 1) else i

/-- Model of `for i <= j && !data.Less(j, a) { j-- }` with `i`, `a` fixed. -/
def scanDown (cmp : α → α → Bool) [Inhabited α] (l : List α) (aIdx i : Nat) :
    Nat → Nat → Nat
  | 0, j => j
  | fuel + 1, j =>
      if i ≤ j && !(lessAt cmp l j aIdx) then scanDown cmp l aIdx i fuel (j - 1) else j

/-- The unbounded swap loop of `partition_func` after the first exchange. -/
def partInner (cmp : α → α → Bool) [Inhabited α] (aIdx b : Nat) :
    Nat → Nat → Nat → List α → Nat × List α
  | 0, _, j, l => (j, l)
  | fuel + 1, i, j, l =>
      let i1 := scanUp cmp l aIdx j (b + 2) i
      let j1 := scanDown cmp l aIdx i1 (b + 2) j
      if i1 > j1 then (j1, l)
      else partInner cmp aIdx b fuel (i1 + 1) (j1 - 1) (swapAt l i1 j1)

/-- Model of `partition_func(data, a, b, pivot)`: returns
`(newpivot, alreadyPartitioned, data)`. -/
def partitionG (cmp : α → α → Bool) [Inhabited α] (a b pivot : Nat) (l : List α) :
    Nat × Bool × List α :=
  let l := swapAt l a pivot
  let i := a + 1
  let j := b - 1
  let i1 := scanUp cmp l a j (b + 2) i
  let j1 := scanDown cmp l a i1 (b + 2) j
  if i1 > j1 then (j1, true, swapAt l j1 a)
  else
    let l := swapAt l i1 j1
    let (jf, l) := partInner cmp a b (b + 2) (i1 + 1) (j1 - 1) l
    (jf, false, swapAt l jf a)

/-- Model of `for i <= j && !data.Less(a, i) { i++ }` of `partitionEqual_func`. -/
def scanUpEq (cmp : α → α → Bool) [Inhabited α] (l : List α) (aIdx j : Nat) :
    Nat → Nat → Nat
  | 0, i => i
  | fuel + 1, i =>
      if i ≤ j && !(lessAt cmp l aIdx i) then scanUpEq cmp l aIdx j fuel (i + 1) else i

/-- Model of `for i <= j && data.Less(a, j) { j-- }` of `partitionEqual_func`. -/
def scanDownEq (cmp : α → α → Bool) [Inhabited α] (l : List α) (aIdx i : Nat) :
    Nat → Nat → Nat
  | 0, j => j
  | fuel + 1, j =>
      if i ≤ j && lessAt cmp l aIdx j then scanDownEq cmp l aIdx i fuel (j - 1) else j

/-- Swap loop of `partitionEqual_func`; returns the final `i` and the data. -/
def partEqInner (cmp : α → α → Bool) [Inhabited α] (aIdx b : Nat) :
    Nat → Nat → Nat → List α → Nat × List α
  | 0, i, _, l => (i, l)
  | fuel + 1, i, j, l =>
      let i1 := scanUpEq cmp l aIdx j (b + 2) i
      let j1 := scanDownEq cmp l aIdx i1 (b + 2) j
      if i1 > j1 then (i1, l)
      else partEqInner cmp aIdx b fuel (i1 + 1) (j1 - 1) (swapAt l i1 j1)

/-- Model of `partitionEqual_func(data, a, b, pivot)`: partition elements equal to
the pivot to the front, returning the first index past them. -/
def partitionEqualG (cmp : α → α → Bool) [Inhabited α] (a b pivot : Nat) (l : List α) :
    Nat × List α :=
  let l := swapAt l a pivot
  partEqInner cmp a b (b + 2) (a + 1) (b - 1) l

/-- Model of `for i < b && !data.Less(i, i-1) { i++ }` of `partialInsertionSort_func`. -/
def advanceI (cmp : α → α → Bool) [Inhabited α] (b : Nat) : Nat → Nat → List α → Nat
  | 0, i, _ => i
  | fuel + 1, i, l =>
      if i < b && !(lessAt cmp l i (i - 1)) then advanceI cmp b fuel (i + 1) l else i

/-- Left shift loop of `partialInsertionSort_func`:
`for j := i-1; j >= 1; j--`, stopping when the pair is ordered. -/
def shiftLeftLoop (cmp : α → α → Bool) [Inhabited α] : Nat → Nat → List α → List α
  | 0, _, l => l
  | fuel + 1, j, l =>
      if 1 ≤ j && lessAt cmp l j (j - 1) then
        shiftLeftLoop cmp fuel (j - 1) (swapAt l j (j - 1))
      else l

/-- Right shift loop of `partialInsertionSort_func`:
`for j := i+1; j < b; j++`, stopping when the pair is ordered. -/
def shiftRightLoop (cmp : α → α → Bool) [Inhabited α] (b : Nat) : Nat → Nat → List α → List α
  | 0, _, l => l
  | fuel + 1, j, l =>
      if j < b && lessAt cmp l j (j - 1) then
        shiftRightLoop cmp b fuel (j + 1) (swapAt l j (j - 1))
      else l

/-- The `maxSteps = 5` outer loop of `partialInsertionSort_func`; returns
whether the range ended up sorted together with the data. -/
def partInsLoop (cmp : α → α → Bool) [Inhabited α] (a b : Nat) :
    Nat → Nat → List α → Bool × List α
  | 0, _, l => (false, l)
  | steps + 1, i, l =>
      let i := advanceI cmp b (b + 1) i l
      if i = b then (true, l)
      else if b - a < 50 then (false, l)
      else
        let l := swapAt l i (i - 1)
        let l := if i - a ≥ 2 then shiftLeftLoop cmp i (i - 1) l else l
        let l := if b - i ≥ 2 then shiftRightLoop cmp b b (i + 1) l else l
        partInsLoop cmp a b steps i l

/-- Model of `partialInsertionSort_func(data, a, b)`. -/
def partInsSortG (cmp : α → α → Bool) [Inhabited α] (a b : Nat) (l : List α) :
    Bool × List α :=
  partInsLoop cmp a b 5 (a + 1) l

/-- Model of `pdqsort_func(data, a, b, limit)`.  A fresh Go call starts with
`wasBalanced = wasPartitioned = true`; the iterative continuation of its
main loop keeps the updated flags, which is modelled by passing them
explicitly to the tail call.  The fuel only bounds the loop/recursion
depth and is ample at every use below. -/
def pdqsortG (cmp : α → α → Bool) [Inhabited α] :
    Nat → Nat → Nat → Nat → Bool → Bool → List α → List α
  | 0, _, _, _, _, _, l => l
  | fuel + 1, a, b, limit, wasBalanced, wasPartitioned, l =>
      let length := b - a
      if length ≤ 12 then insertionSortG cmp a b l
      else if limit = 0 then heapSortG cmp a b l
      else
        let (l, limit) :=
          if !wasBalanced then (breakPatternsG a b l, limit - 1) else (l, limit)
        let (pivot, hint) := choosePivotG cmp l a b
        let (l, pivot, hint) :=
          if hint = 2 then (reverseRangeG a b l, (b - 1) - (pivot - a), 1)
          else (l, pivot, hint)
        let (wasSorted, l) :=
          if wasBalanced && wasPartitioned && hint = 1 then partInsSortG cmp a b l
          else (false, l)
        if wasSorted then l
        else if a > 0 && !(lessAt cmp l (a - 1) pivot) then
          let (mid, l) := partitionEqualG cmp a b pivot l
          pdqsortG cmp fuel mid b limit wasBalanced wasPartitioned l
        else
          let (mid, alreadyP, l) := partitionG cmp a b pivot l
          let leftLen := mid - a
          let rightLen := b - mid
          let balanceThreshold := length / 8
          let nowBalanced := min leftLen rightLen ≥ balanceThreshold
          if leftLen < rightLen then
            let l := pdqsortG cmp fuel a mid limit true true l
            pdqsortG cmp fuel (mid + 1) b limit nowBalanced alreadyP l
          else
            let l := pdqsortG cmp fuel (mid + 1) b limit true true l
            pdqsortG cmp fuel a mid limit nowBalanced alreadyP l

/-- Model of `sort.Slice(x, less)`: `pdqsort(data, 0, length, bits.Len(uint(length)))`. -/
def sortSlice (cmp : α → α → Bool) [Inhabited α] (l : List α) : List α :=
  pdqsortG cmp (l.length + bitsLen l.length + 1) 0 l.length (bitsLen l.length) true true l

/-! ### The extraction layer (`scrapeEinthusan`, `scrapeWatchDetails`) -/

/-- Model of `const mainUrl = "https://einthusan.tv"`. -/
def mainUrl : List Char := ("https://einthusan.tv").data

/-- goquery `Attr` ignoring the `exists` flag, as the code does
(`href, _ := …Attr("href")`): a missing attribute is the empty string. -/
def attrOrEmpty : Option (List Char) → List Char
  | some s => s
  | none => []

/-- One `#UIMovieSummary > ul > li` item of a listing page, carrying the
three fields `scrapeEinthusan` reads from it: the text of
`div.block2 > a.title > h3`, the `href` of `div.block2 > a.title`, and the
`src` of `div.block1 > a > img`. -/
structure ListItem where
  titleText : List Char
  href : Option (List Char)
  imgSrc : Option (List Char)
deriving DecidableEq, Repr

/-- The image-source normalization both scrapers perform: a protocol
relative `//…` source gets `https:` prepended, anything else is kept. -/
def normalizeImg (imgSrc : List Char) : List Char :=
  if startsWith imgSrc (['/', '/']) then ("https:").data ++ imgSrc else imgSrc

/-- The `MovieEntry` built from one listing item:
`{ImgUrl: fullImg, PageUrl: mainUrl + href, Title: title}`. -/
def entryOfItem (it : ListItem) : MovieEntry :=
  { imgUrl := normalizeImg (attrOrEmpty it.imgSrc)
    pageUrl := mainUrl ++ attrOrEmpty it.href
    title := trimSpace it.titleText }

/-- The `doc.Find(…).Each` loop of `scrapeEinthusan`: an item is appended
exactly when its trimmed title is non-empty. -/
def scrapeListLoop : List ListItem → List MovieEntry → List MovieEntry
  | [], acc => acc
  | it :: rest, acc =>
      if !(trimSpace it.titleText).isEmpty then
        scrapeListLoop rest (acc ++ [entryOfItem it])
      else scrapeListLoop rest acc

/-- Model of `scrapeEinthusan` after fetch and parse, on the matched items. -/
def scrapeEinthusanItems (items : List ListItem) : List MovieEntry :=
  scrapeListLoop items []

/-! ### The dotted-quad endpoint rewrite
`regexp.MustCompile('\b\d{1,3}\.\d{1,3}\.\d{1,3}\.\d{1,3}\b')` and
`ReplaceAllString(finalUrl, "cdn1.einthusan.io")`.  Go's regexp uses the
ASCII word/boundary classes: a word character is `[0-9A-Za-z_]`. -/

/-- RE2 `\w` (ASCII). -/
def isWordChar (c : Char) : Bool :=
  c.isDigit || ('a' ≤ c && c ≤ 'z') || ('A' ≤ c && c ≤ 'Z') || c = '_'

/-- Length of the maximal leading digit run. -/
def digitRun : List Char → Nat
  | [] => 0
  | c :: cs => if c.isDigit then digitRun cs + 1 else 0

/-- Match `\d{1,3}\.` at the head.  A greedy 1–3 digit group followed by a
literal dot can only succeed by consuming the whole leading digit run
(stopping early leaves a digit where the dot is required), so the run must
have length 1–3 and be followed by `.`.  Returns the consumed length and
the remainder. -/
def groupDot (s : List Char) : Option (Nat × List Char) :=
  if 1 ≤ digitRun s ∧ digitRun s ≤ 3 then
    match s.drop (digitRun s) with
    | [] => none
    | c :: rest => if c = '.' then some (digitRun s + 1, rest) else none
  else none

/-- Match the final `\d{1,3}\b` at the head: the whole leading digit run,
of length 1–3, followed by the end of the string or a non-word rune. -/
def lastGroup (s : List Char) : Option Nat :=
  if 1 ≤ digitRun s ∧ digitRun s ≤ 3 then
    match s.drop (digitRun s) with
    | [] => some (digitRun s)
    | c :: _ => if isWordChar c then none else some (digitRun s)
  else none

/-- Length of a match of `\d{1,3}\.\d{1,3}\.\d{1,3}\.\d{1,3}\b` at the head
of `s` (the leading `\b` is the caller's responsibility). -/
def quadLen (s : List Char) : Option Nat :=
  (groupDot s).bind fun p1 =>
    (groupDot p1.2).bind fun p2 =>
      (groupDot p2.2).bind fun p3 =>
        (lastGroup p3.2).map fun l4 => p1.1 + p2.1 + p3.1 + l4

/-- The fixed replacement hostname. -/
def cdnHost : List Char := ("cdn1.einthusan.io").data

/-- Model of `ReplaceAllString` scan: `prevW` is the word-character status of the
previous rune (false at the start), `skip` counts runes of a just-replaced
match still to be consumed.  Matches are leftmost and non-overlapping; the
search resumes right after each match, as Go's regexp does. -/
def rqLoop : Bool → Nat → List Char → List Char
  | _, _, [] => []
  | _, k + 1, c :: cs => rqLoop (isWordChar c) k cs
  | prevW, 0, c :: cs =>
      if !prevW then
        match quadLen (c :: cs) with
        | some len => cdnHost ++ rqLoop (isWordChar c) (len - 1) cs
        | none => c :: rqLoop (isWordChar c) 0 cs
      else c :: rqLoop (isWordChar c) 0 cs

/-- Model of `re.ReplaceAllString(s, "cdn1.einthusan.io")` for the dotted-quad
pattern. -/
def replaceAllQuad (s : List Char) : List Char := rqLoop false 0 s

/-- Decision procedure for "some position of `s` starts a match of the
bounded dotted-quad pattern", with `prevW` the word status before `s`. -/
def scanHasQuad : Bool → List Char → Bool
  | _, [] => false
  | prevW, c :: cs => (!prevW && (quadLen (c :: cs)).isSome) || scanHasQuad (isWordChar c) cs

/-- Spec-side reading of a dotted quad: four dot-separated groups of one to
three digits. -/
def dottedQuad (q : List Char) : Prop :=
  ∃ g1 g2 g3 g4 : List Char,
    (1 ≤ g1.length ∧ g1.length ≤ 3 ∧ ∀ c ∈ g1, c.isDigit = true) ∧
    (1 ≤ g2.length ∧ g2.length ≤ 3 ∧ ∀ c ∈ g2, c.isDigit = true) ∧
    (1 ≤ g3.length ∧ g3.length ≤ 3 ∧ ∀ c ∈ g3, c.isDigit = true) ∧
    (1 ≤ g4.length ∧ g4.length ≤ 3 ∧ ∀ c ∈ g4, c.isDigit = true) ∧
    q = g1 ++ '.' :: (g2 ++ '.' :: (g3 ++ '.' :: g4))

/-- Spec-side reading of "the string contains a dotted-quad substring
bounded by word boundaries". -/
def containsBoundedQuad (s : List Char) : Prop :=
  ∃ pre q suf : List Char,
    dottedQuad q ∧ s = pre ++ q ++ suf ∧
    (∀ c, pre.getLast? = some c → isWordChar c = false) ∧
    (∀ c, suf.head? = some c → isWordChar c = false)

/-! ### `scrapeWatchDetails` -/

/-- The fields `scrapeWatchDetails` reads from a watch page: the text of
the first `#UIMovieSummary div.block2 a.title h3`, the `src` of
`#UIMovieSummary div.block1 img`, and the `data-mp4-link` /
`data-hls-link` attributes of `#UIVideoPlayer`. -/
structure WatchPage where
  titleText : List Char
  imgSrc : Option (List Char)
  mp4Link : Option (List Char)
  hlsLink : Option (List Char)
deriving DecidableEq, Repr

/-- The `WatchResponse` record (`title`, `video_url`, `img_url`). -/
structure WatchResponse where
  title : List Char
  videoUrl : List Char
  imgUrl : List Char
deriving DecidableEq, Repr

/-- The candidate video address: `data-mp4-link`, falling back to
`data-hls-link` when the former is empty. -/
def watchCandidate (p : WatchPage) : List Char :=
  let mp4 := attrOrEmpty p.mp4Link
  if mp4.isEmpty then attrOrEmpty p.hlsLink else mp4

/-- Model of `scrapeWatchDetails` after fetch and parse: trim the title, normalise
the poster source, and, when a candidate video address exists, normalise a
protocol-relative prefix and apply the dotted-quad rewrite. -/
def scrapeWatchDetails (p : WatchPage) : WatchResponse :=
  let title := trimSpace p.titleText
  let imgSrc := normalizeImg (attrOrEmpty p.imgSrc)
  let mp4Link := watchCandidate p
  let finalUrl :=
    if !mp4Link.isEmpty then
      replaceAllQuad (if startsWith mp4Link (['/', '/']) then ("https:").data ++ mp4Link
        else mp4Link)
    else mp4Link
  { title := title, videoUrl := finalUrl, imgUrl := imgSrc }

/-! ### Query translation and the handlers -/

/-- Model of `strings.ReplaceAll` scan for a non-empty pattern: replace leftmost
non-overlapping occurrences; `skip` consumes the runes of a replaced
occurrence. -/
def raLoop (old new : List Char) : Nat → List Char → List Char
  | _, [] => []
  | k + 1, _ :: cs => raLoop old new k cs
  | 0, c :: cs =>
      if startsWith (c :: cs) old && !old.isEmpty then
        new ++ raLoop old new (old.length - 1) cs
      else c :: raLoop old new 0 cs

/-- Model of `strings.ReplaceAll(s, old, new)`; for an empty pattern Go inserts
`new` before every rune and at the end. -/
def goReplaceAll (s old new : List Char) : List Char :=
  if old.isEmpty then new ++ s.foldr (fun c acc => c :: (new ++ acc)) []
  else raLoop old new 0 s

/-- Decimal rendering of an `Int`, as `fmt.Sprintf("%d", n)`. -/
def intToChars (n : Int) : List Char := (toString n).data

/-- The page suffix shared by the Browse/Actor/Genre/Decade/Year handlers:
`if page > 1 { targetUrl = fmt.Sprintf("%s&page=%d", targetUrl, page) }`. -/
def appendPage (url : List Char) (page : Int) : List Char :=
  if page > 1 then url ++ ("&page=").data ++ intToChars page else url

/-- Model of `/search` target URL:
`fmt.Sprintf("%s/movie/results/?lang=%s&query=%s", mainUrl, language, fixedQuery)`
with `fixedQuery := strings.ReplaceAll(query, " ", "+")`. -/
def searchTargetUrl (language query : List Char) : List Char :=
  mainUrl ++ ("/movie/results/?lang=").data ++ language ++ ("&query=").data ++
    goReplaceAll query ([' ']) (['+'])

/-- Recent-listing URL of the `/language` handler. -/
def recentBaseUrl (language : List Char) : List Char :=
  mainUrl ++ ("/movie/results/?find=Recent&lang=").data ++ language

/-- Popular-listing URL of the `/language` handler. -/
def popularBaseUrl (language : List Char) : List Char :=
  mainUrl ++ ("/movie/results/?find=Popularity&lang=").data ++ language ++
    ("&ptype=view&tp=alltime").data

/-- Base URL selection of the `/language` handler
(`if category == "popular" … else …`). -/
def browseBaseUrl (language category : List Char) : List Char :=
  if category = ("popular").data then popularBaseUrl language else recentBaseUrl language

/-- Model of `/language` target URL including the conditional page suffix. -/
def browseTargetUrl (language category : List Char) (page : Int) : List Char :=
  appendPage (browseBaseUrl language category) page

/-- Model of `/actors` base URL. -/
def actorsBaseUrl (language actorCode : List Char) : List Char :=
  mainUrl ++ ("/movie/results/?find=Cast&id=").data ++ actorCode ++
    ("&lang=").data ++ language ++ ("&role=").data

/-- Model of `/actors` target URL. -/
def actorsTargetUrl (language actorCode : List Char) (page : Int) : List Char :=
  appendPage (actorsBaseUrl language actorCode) page

/-- Model of `/genre` base URL with the five rating bands and the rate count. -/
def genreBaseUrl (language action comedy romance storyline performance ratecount :
    List Char) : List Char :=
  mainUrl ++ ("/movie/results/?lang=").data ++ language ++ ("&find=Rating&action=").data ++
    action ++ ("&comedy=").data ++ comedy ++ ("&romance=").data ++ romance ++
    ("&storyline=").data ++ storyline ++ ("&performance=").data ++ performance ++
    ("&ratecount=").data ++ ratecount

/-- Model of `/genre` target URL. -/
def genreTargetUrl (language action comedy romance storyline performance ratecount :
    List Char) (page : Int) : List Char :=
  appendPage (genreBaseUrl language action comedy romance storyline performance ratecount) page

/-- Model of `/decade` base URL. -/
def decadeBaseUrl (language decade : List Char) : List Char :=
  mainUrl ++ ("/movie/results/?decade=").data ++ decade ++ ("&find=Decade&lang=").data ++
    language

/-- Model of `/decade` target URL. -/
def decadeTargetUrl (language decade : List Char) (page : Int) : List Char :=
  appendPage (decadeBaseUrl language decade) page

/-- Model of `/year` base URL. -/
def yearBaseUrl (language year : List Char) : List Char :=
  mainUrl ++ ("/movie/results/?find=Year&lang=").data ++ language ++ ("&year=").data ++ year

/-- Model of `/year` target URL. -/
def yearTargetUrl (language year : List Char) (page : Int) : List Char :=
  appendPage (yearBaseUrl language year) page

/-- Model of `strconv.Atoi` with the error discarded, as `page, _ := strconv.Atoi(…)`
does: optional sign followed by decimal digits, `0` on a syntax error.
(The int64 clamping of out-of-range values is not modelled; no claim
involves a 19-digit page number.) -/
def goAtoi (s : List Char) : Int :=
  let digits : List Char → Option Nat := fun ds =>
    if ds.isEmpty then none
    else ds.foldl (fun acc c => match acc with
      | none => none
      | some n => if c.isDigit then some (n * 10 + (c.toNat - '0'.toNat)) else none)
      (some 0)
  match s with
  | '-' :: rest => match digits rest with | some n => -(n : Int) | none => 0
  | '+' :: rest => match digits rest with | some n => (n : Int) | none => 0
  | _ => match digits s with | some n => (n : Int) | none => 0

/-- Outcome of a handler body: a JSON payload or a 500 with the error text
(`c.JSON(http.StatusInternalServerError, gin.H{"error": err.Error()})`). -/
inductive HandlerResult (α : Type) where
  | ok : α → HandlerResult α
  | err : List Char → HandlerResult α
deriving DecidableEq, Repr

/-- The `/search` response shape (`language`, `movies`, `q`). -/
structure SearchResponse where
  language : List Char
  movies : List MovieEntry
  q : List Char
deriving DecidableEq, Repr

/-- The `/language` (and `/genre`/`/decade`/`/year`) response shape. -/
structure BrowseResponse where
  category : List Char
  hasMore : Bool
  language : List Char
  movies : List MovieEntry
  nextPage : Int
  page : Int
deriving DecidableEq, Repr

/-- A page fetcher: `http.Get` plus `goquery.NewDocumentFromReader` plus
the listing selector, abstracted as an oracle from the URL to either the
matched items or an error message (fetch or parse failure). -/
def Fetcher : Type := List Char → Except (List Char) (List ListItem)

/-- The `/search` handler body.  The second component is the list of
upstream URLs fetched while handling the request. -/
def searchHandler (language query : List Char) (fetch : Fetcher) :
    HandlerResult SearchResponse × List (List Char) :=
  if query.isEmpty then
    (.ok { language := language, movies := [], q := query }, [])
  else
    let targetUrl := searchTargetUrl language query
    match fetch targetUrl with
    | .error e => (.err e, [targetUrl])
    | .ok items =>
        let movies := scrapeEinthusanItems items
        let sorted := sortSlice (searchLess query) movies
        (.ok { language := language, movies := sorted, q := query }, [targetUrl])

/-- The `/language` handler body: default the category to `recent`, lower
it, default the page to `"1"`, parse it, fetch the selected listing URL. -/
def browseHandler (language : List Char) (categoryParam pageParam : Option (List Char))
    (fetch : Fetcher) : HandlerResult BrowseResponse × List (List Char) :=
  let category := toLowerGo (categoryParam.getD (("recent").data))
  let page := goAtoi (pageParam.getD (("1").data))
  let targetUrl := browseTargetUrl language category page
  match fetch targetUrl with
  | .error e => (.err e, [targetUrl])
  | .ok items =>
      let movies := scrapeEinthusanItems items
      (.ok { category := category, hasMore := decide (0 < movies.length),
             language := language, movies := movies, nextPage := page + 1, page := page },
       [targetUrl])

/-! ### Concrete inputs used in the evaluations below -/

/-- An entry with only a title, as the ranking reads nothing else. -/
def titledEntry (t : List Char) : MovieEntry := { imgUrl := [], pageUrl := [], title := t }

/-- Query used in the instability evidence for the `/search` sort. -/
def unstableQuery : List Char := ['a']

/-- Thirteen extracted entries whose titles have fuzzy ranks
`[5,5,5,5,5,5,9,1,1,1,1,1,1]` against the query `"a"`: six tied entries,
one strictly better-ranked one (under the code's descending comparator the
rank 9 sorts first) and six further tied ones.  Thirteen elements exceed
`sort.Slice`'s insertion-sort cutoff of 12, so the quicksort partition
runs. -/
def unstableMovies : List MovieEntry :=
  [titledEntry (("abcde0").data), titledEntry (("abcde1").data),
   titledEntry (("abcde2").data), titledEntry (("abcde3").data),
   titledEntry (("abcde4").data), titledEntry (("abcde5").data),
   titledEntry (("abcdefghij").data), titledEntry (("a0").data),
   titledEntry (("a1").data), titledEntry (("a2").data),
   titledEntry (("a3").data), titledEntry (("a4").data), titledEntry (("a5").data)]

/-- The ranking example fixed by the spec: titles Apple, Api, Grape. -/
def apiMovies : List MovieEntry :=
  [titledEntry (("Apple").data), titledEntry (("Api").data), titledEntry (("Grape").data)]

/-- A watch page whose video player carries the raw delivery-node address
of the spec's rewrite example. -/
def quadExamplePage : WatchPage :=
  { titleText := ("T").data, imgSrc := none,
    mp4Link := some (("https://192.168.10.5/path/video.mp4").data), hlsLink := none }

/-! ### Supporting lemmas -/

theorem scrapeListLoop_eq (items : List ListItem) :
    ∀ acc, scrapeListLoop items acc =
      acc ++ (items.filter (fun it => !(trimSpace it.titleText).isEmpty)).map entryOfItem := by
  induction items with
  | nil => intro acc; simp [scrapeListLoop]
  | cons it rest ih =>
      intro acc
      by_cases h : (trimSpace it.titleText).isEmpty
      · simp [scrapeListLoop, h, ih, List.filter_cons]
      · simp [scrapeListLoop, h, ih, List.filter_cons]

theorem raLoop_space (q : List Char) :
    raLoop ([' ']) (['+']) 0 q = q.map (fun c => if c = ' ' then '+' else c) := by
  induction q with
  | nil => rfl
  | cons c cs ih =>
      by_cases h : c = ' '
      · subst h; simp [raLoop, startsWith, ih]
      · simp [raLoop, startsWith, h, ih]

theorem map_space_id (q : List Char) (h : ' ' ∉ q) :
    q.map (fun c => if c = ' ' then '+' else c) = q := by
  induction q with
  | nil => rfl
  | cons c cs ih =>
      have hc : c ≠ ' ' := fun he => h (he ▸ List.mem_cons_self c cs)
      simp only [List.map_cons, if_neg hc, ih (fun hm => h (List.mem_cons_of_mem c hm))]

theorem digitRun_le_length (s : List Char) : digitRun s ≤ s.length := by
  induction s with
  | nil => simp [digitRun]
  | cons c cs ih =>
      by_cases h : c.isDigit
      · simp only [digitRun, h, if_pos, List.length_cons]; omega
      · simp [digitRun, h]

theorem digitRun_take_digits (s : List Char) : ∀ c ∈ s.take (digitRun s), c.isDigit = true := by
  induction s with
  | nil => simp [digitRun]
  | cons c cs ih =>
      by_cases h : c.isDigit
      · simp only [digitRun, h, if_pos, List.take_succ_cons]
        intro x hx
        rcases List.mem_cons.mp hx with hx | hx
        · exact hx ▸ h
        · exact ih x hx
      · simp [digitRun, h]

theorem digitRun_append_digits (g t : List Char) (hd : ∀ c ∈ g, c.isDigit = true) :
    digitRun (g ++ t) = g.length + digitRun t := by
  induction g with
  | nil => simp [digitRun]
  | cons c cs ih =>
      have hc := hd c (List.mem_cons_self c cs)
      have := ih (fun x hx => hd x (List.mem_cons_of_mem c hx))
      simp [digitRun, hc, this]
      omega

theorem not_digit_of_not_word (c : Char) (h : isWordChar c = false) : c.isDigit = false := by
  by_cases hd : c.isDigit
  · simp [isWordChar, hd] at h
  · simpa using hd

theorem digitRun_no_digit_head (t : List Char)
    (h : ∀ c, t.head? = some c → isWordChar c = false) : digitRun t = 0 := by
  cases t with
  | nil => rfl
  | cons c cs =>
      have := not_digit_of_not_word c (h c rfl)
      simp [digitRun, this]

theorem take_digitRun_length (s : List Char) :
    (s.take (digitRun s)).length = digitRun s := by
  simp [List.length_take, Nat.min_eq_left (digitRun_le_length s)]

theorem groupDot_sound (s : List Char) (n : Nat) (s1 : List Char)
    (h : groupDot s = some (n, s1)) :
    ∃ g, s = g ++ '.' :: s1 ∧ 1 ≤ g.length ∧ g.length ≤ 3 ∧
      (∀ c ∈ g, c.isDigit = true) := by
  unfold groupDot at h
  split at h
  next hb =>
    revert h
    split
    next => intro h; cases h
    next c rest hdrop =>
      intro h
      by_cases hc : c = '.'
      · rw [if_pos hc] at h
        have hinj := Option.some.inj h
        have hs1 : s1 = rest := congrArg Prod.snd hinj |>.symm
        refine ⟨s.take (digitRun s), ?_, ?_, ?_, digitRun_take_digits s⟩
        · conv_lhs => rw [← List.take_append_drop (digitRun s) s]
          rw [hdrop, hc, hs1]
        · have := take_digitRun_length s; omega
        · have := take_digitRun_length s; omega
      · rw [if_neg hc] at h; cases h
  next => cases h

theorem lastGroup_sound (s : List Char) (r : Nat) (h : lastGroup s = some r) :
    ∃ g suf, s = g ++ suf ∧ 1 ≤ g.length ∧ g.length ≤ 3 ∧
      (∀ c ∈ g, c.isDigit = true) ∧
      (∀ c, suf.head? = some c → isWordChar c = false) := by
  unfold lastGroup at h
  split at h
  next hb =>
    have hlen := take_digitRun_length s
    refine ⟨s.take (digitRun s), s.drop (digitRun s), (List.take_append_drop _ s).symm,
      by omega, by omega, digitRun_take_digits s, ?_⟩
    revert h
    split
    next hdrop => intro _ c hc; rw [hdrop] at hc; cases hc
    next c rest hdrop =>
      intro h c' hc'
      by_cases hw : isWordChar c
      · rw [if_pos hw] at h; cases h
      · rw [hdrop] at hc'
        cases hc'
        simpa using hw
  next => cases h

theorem quadLen_sound (s : List Char) (L : Nat) (h : quadLen s = some L) :
    ∃ q suf, s = q ++ suf ∧ dottedQuad q ∧
      (∀ c, suf.head? = some c → isWordChar c = false) := by
  unfold quadLen at h
  obtain ⟨p1, h1, h⟩ := Option.bind_eq_some.mp h
  obtain ⟨p2, h2, h⟩ := Option.bind_eq_some.mp h
  obtain ⟨p3, h3, h⟩ := Option.bind_eq_some.mp h
  obtain ⟨l4, h4, -⟩ := Option.map_eq_some'.mp h
  obtain ⟨g1, hg1, hg1a, hg1b, hg1d⟩ := groupDot_sound s p1.1 p1.2 (by rw [h1])
  obtain ⟨g2, hg2, hg2a, hg2b, hg2d⟩ := groupDot_sound p1.2 p2.1 p2.2 (by rw [h2])
  obtain ⟨g3, hg3, hg3a, hg3b, hg3d⟩ := groupDot_sound p2.2 p3.1 p3.2 (by rw [h3])
  obtain ⟨g4, suf, hg4, hg4a, hg4b, hg4d, hsuf⟩ := lastGroup_sound p3.2 l4 h4
  refine ⟨g1 ++ '.' :: (g2 ++ '.' :: (g3 ++ '.' :: g4)), suf, ?_, ?_, hsuf⟩
  · rw [hg1, hg2, hg3, hg4]
    simp [List.append_assoc]
  · exact ⟨g1, g2, g3, g4, ⟨hg1a, hg1b, hg1d⟩, ⟨hg2a, hg2b, hg2d⟩,
      ⟨hg3a, hg3b, hg3d⟩, ⟨hg4a, hg4b, hg4d⟩, rfl⟩

theorem groupDot_complete (g rest : List Char) (h1 : 1 ≤ g.length) (h3 : g.length ≤ 3)
    (hd : ∀ c ∈ g, c.isDigit = true) :
    groupDot (g ++ '.' :: rest) = some (g.length + 1, rest) := by
  have hrun : digitRun (g ++ '.' :: rest) = g.length := by
    rw [digitRun_append_digits g ('.' :: rest) hd]
    simp [digitRun, Char.isDigit]
  unfold groupDot
  rw [hrun, List.drop_left, if_pos ⟨h1, h3⟩]
  simp

theorem lastGroup_complete (g suf : List Char) (h1 : 1 ≤ g.length) (h3 : g.length ≤ 3)
    (hd : ∀ c ∈ g, c.isDigit = true)
    (hsuf : ∀ c, suf.head? = some c → isWordChar c = false) :
    lastGroup (g ++ suf) = some g.length := by
  have hrun : digitRun (g ++ suf) = g.length := by
    rw [digitRun_append_digits g suf hd, digitRun_no_digit_head suf hsuf]
    omega
  unfold lastGroup
  rw [hrun, List.drop_left, if_pos ⟨h1, h3⟩]
  cases suf with
  | nil => rfl
  | cons c cs =>
      have hw : isWordChar c = false := hsuf c rfl
      simp [hw]

theorem quadLen_complete (q suf : List Char) (hq : dottedQuad q)
    (hsuf : ∀ c, suf.head? = some c → isWordChar c = false) :
    (quadLen (q ++ suf)).isSome = true := by
  obtain ⟨g1, g2, g3, g4, ⟨h1a, h1b, h1d⟩, ⟨h2a, h2b, h2d⟩, ⟨h3a, h3b, h3d⟩,
    ⟨h4a, h4b, h4d⟩, hqe⟩ := hq
  have hshape : q ++ suf =
      g1 ++ '.' :: (g2 ++ '.' :: (g3 ++ '.' :: (g4 ++ suf))) := by
    rw [hqe]; simp [List.append_assoc]
  rw [hshape]
  unfold quadLen
  rw [groupDot_complete g1 _ h1a h1b h1d]
  rw [Option.some_bind]
  rw [groupDot_complete g2 _ h2a h2b h2d]
  rw [Option.some_bind]
  rw [groupDot_complete g3 _ h3a h3b h3d]
  rw [Option.some_bind]
  rw [lastGroup_complete g4 suf h4a h4b h4d hsuf]
  rfl

theorem scanHasQuad_sound (s : List Char) :
    ∀ prevW : Bool, scanHasQuad prevW s = true →
      ∃ pre rest, s = pre ++ rest ∧
        (pre = [] → prevW = false) ∧
        (∀ c, pre.getLast? = some c → isWordChar c = false) ∧
        (quadLen rest).isSome = true := by
  induction s with
  | nil => intro prevW h; simp [scanHasQuad] at h
  | cons c cs ih =>
      intro prevW h
      simp only [scanHasQuad, Bool.or_eq_true, Bool.and_eq_true, Bool.not_eq_true'] at h
      rcases h with ⟨hw, hsome⟩ | h
      · refine ⟨[], c :: cs, rfl, fun _ => hw, ?_, hsome⟩
        intro c' hc'
        simp at hc'
      · obtain ⟨pre, rest, heq, hpre, hlast, hsome⟩ := ih (isWordChar c) h
        refine ⟨c :: pre, rest, by rw [heq]; rfl, ?_, ?_, hsome⟩
        · intro hcp
          simp at hcp
        intro c' hc'
        cases pre with
        | nil =>
            simp only [List.getLast?_singleton, Option.some.injEq] at hc'
            rw [← hc']
            exact hpre rfl
        | cons p ps =>
            rw [List.getLast?_cons_cons] at hc'
            exact hlast c' hc'

theorem containsBoundedQuad_of_scan (s : List Char) (h : scanHasQuad false s = true) :
    containsBoundedQuad s := by
  obtain ⟨pre, rest, heq, -, hlast, hsome⟩ := scanHasQuad_sound s false h
  obtain ⟨L, hL⟩ := Option.isSome_iff_exists.mp hsome
  obtain ⟨q, suf, hrest, hq, hsuf⟩ := quadLen_sound rest L hL
  exact ⟨pre, q, suf, hq, by rw [heq, hrest, List.append_assoc], hlast, hsuf⟩

theorem scanHasQuad_of_decomp (q suf : List Char) (hq : dottedQuad q)
    (hsuf : ∀ c, suf.head? = some c → isWordChar c = false) :
    ∀ (pre : List Char) (prevW : Bool),
      (pre = [] → prevW = false) →
      (∀ c, pre.getLast? = some c → isWordChar c = false) →
      scanHasQuad prevW (pre ++ q ++ suf) = true := by
  intro pre
  induction pre with
  | nil =>
      intro prevW hpre _
      have hq0 : q ≠ [] := by
        obtain ⟨g1, _, _, _, ⟨h1a, _, _⟩, _, _, _, hqe⟩ := hq
        rw [hqe]
        cases g1 with
        | nil => simp at h1a
        | cons x xs => simp
      rw [hpre rfl]
      cases hqs : q ++ suf with
      | nil =>
          exact absurd (List.append_eq_nil.mp hqs).1 hq0
      | cons x xs =>
          have hx : (quadLen (x :: xs)).isSome = true := by
            rw [← hqs]
            simpa using quadLen_complete q suf hq hsuf
          show scanHasQuad false (List.nil ++ q ++ suf) = true
          rw [List.nil_append, hqs]
          simp [scanHasQuad, hx]
  | cons c pre' ih =>
      intro prevW _ hlast
      have hstep : scanHasQuad (isWordChar c) (pre' ++ q ++ suf) = true := by
        apply ih (isWordChar c)
        · intro hp
          subst hp
          exact hlast c rfl
        · intro c' hc'
          apply hlast c'
          cases pre' with
          | nil => cases hc'
          | cons p ps => rw [List.getLast?_cons_cons]; exact hc'
      rw [List.append_assoc] at hstep
      simp [scanHasQuad, hstep]

theorem rqLoop_id (s : List Char) :
    ∀ prevW : Bool, scanHasQuad prevW s = false → rqLoop prevW 0 s = s := by
  induction s with
  | nil => intro prevW _; rfl
  | cons c cs ih =>
      intro prevW h
      simp only [scanHasQuad, Bool.or_eq_false_iff, Bool.and_eq_false_iff] at h
      obtain ⟨h1, h2⟩ := h
      cases hp : prevW
      · have hn : quadLen (c :: cs) = none := by
          rcases h1 with h1 | h1
          · rw [hp] at h1; cases h1
          · exact Option.not_isSome_iff_eq_none.mp (by simp [h1])
        simp [rqLoop, hn, ih (isWordChar c) h2]
      · simp [rqLoop, ih (isWordChar c) h2]

/-! ### Claim theorems -/

set_option maxRecDepth 100000

/-- Claim C1 (evidence of the code bug).  The claim says the `/search` sort
is stable: equal-score entries retain their original relative order.  The
code sorts with `sort.Slice`, whose pdqsort is not stable.  Evaluating the
embedded `sort.Slice` on thirteen entries, six of which are tied at rank 5
against the query `"a"`, the tied titles come out in the order
`abcde3, abcde2, abcde0, abcde4, abcde5, abcde1` instead of the original
`abcde0 … abcde5`: the conjuncts record the full output, that the two
titles `abcde0` and `abcde3` have equal scores, that `abcde0` precedes
`abcde3` in the input, and that `abcde3` precedes `abcde0` in the output. -/
theorem c1_sort_slice_unstable :
    ((sortSlice (searchLess unstableQuery) unstableMovies).map MovieEntry.title =
      [("abcdefghij").data, ("abcde3").data, ("abcde2").data, ("abcde0").data,
       ("abcde4").data, ("abcde5").data, ("abcde1").data, ("a0").data, ("a1").data,
       ("a2").data, ("a3").data, ("a4").data, ("a5").data])
  ∧ (rankMatchGo (toLowerGo unstableQuery) (toLowerGo (("abcde0").data)) =
      rankMatchGo (toLowerGo unstableQuery) (toLowerGo (("abcde3").data)))
  ∧ ((unstableMovies.map MovieEntry.title).indexOf (("abcde0").data) <
      (unstableMovies.map MovieEntry.title).indexOf (("abcde3").data))
  ∧ (((sortSlice (searchLess unstableQuery) unstableMovies).map MovieEntry.title).indexOf
        (("abcde3").data) <
      ((sortSlice (searchLess unstableQuery) unstableMovies).map MovieEntry.title).indexOf
        (("abcde0").data)) := by
  decide

/-- Claim C3: for the phrase `"api"` ranked against the titles
`["Apple","Api","Grape"]`, the Relevance Ranker places `Api` at or above
`Apple` and both above `Grape` (the embedded handler sort returns
`[Api, Apple, Grape]`). -/
theorem c3_api_ranking :
    ((sortSlice (searchLess (("api").data)) apiMovies).map MovieEntry.title =
      [("Api").data, ("Apple").data, ("Grape").data])
  ∧ (((sortSlice (searchLess (("api").data)) apiMovies).map MovieEntry.title).indexOf
        (("Api").data) ≤
      ((sortSlice (searchLess (("api").data)) apiMovies).map MovieEntry.title).indexOf
        (("Apple").data))
  ∧ (((sortSlice (searchLess (("api").data)) apiMovies).map MovieEntry.title).indexOf
        (("Apple").data) <
      ((sortSlice (searchLess (("api").data)) apiMovies).map MovieEntry.title).indexOf
        (("Grape").data))
  ∧ (((sortSlice (searchLess (("api").data)) apiMovies).map MovieEntry.title).indexOf
        (("Api").data) <
      ((sortSlice (searchLess (("api").data)) apiMovies).map MovieEntry.title).indexOf
        (("Grape").data)) := by
  decide

/-- Claim C6: a `/search` request with an empty `q` yields the empty movie
list with the echoed language and query, and performs no upstream fetch
(its fetch log is empty, for every fetcher). -/
theorem c6_empty_query_no_fetch :
    ∀ (language : List Char) (fetch : Fetcher),
      searchHandler language [] fetch =
        (HandlerResult.ok { language := language, movies := [], q := [] }, []) := by
  intro language fetch
  rfl

/-- Claim C7: on a watch page with neither `data-mp4-link` nor
`data-hls-link`, the Watch Extractor succeeds with an empty `videoUrl`
while the title and poster are still populated; moreover the direct video
attribute is consulted first and the manifest attribute only when the
direct one is empty. -/
theorem c7_watch_missing_video_ok :
    ∀ p : WatchPage,
      (attrOrEmpty p.mp4Link = [] → attrOrEmpty p.hlsLink = [] →
        scrapeWatchDetails p =
          { title := trimSpace p.titleText, videoUrl := [],
            imgUrl := normalizeImg (attrOrEmpty p.imgSrc) })
    ∧ (attrOrEmpty p.mp4Link ≠ [] → watchCandidate p = attrOrEmpty p.mp4Link)
    ∧ (attrOrEmpty p.mp4Link = [] → watchCandidate p = attrOrEmpty p.hlsLink) := by
  intro p
  refine ⟨?_, ?_, ?_⟩
  · intro h1 h2
    simp [scrapeWatchDetails, watchCandidate, h1, h2]
  · intro h1
    unfold watchCandidate
    rw [if_neg (by simpa [List.isEmpty_iff] using h1)]
  · intro h1
    unfold watchCandidate
    rw [if_pos (by simp [h1])]

/-- Witness for C7 at a concrete page carrying a title and a poster but no
video attributes. -/
theorem c7_watch_missing_video_ok_witness :
    scrapeWatchDetails
        { titleText := ((" My Movie ")).data, imgSrc := some ((("//img.example/p.jpg")).data),
          mp4Link := none, hlsLink := none } =
      { title := (("My Movie")).data, videoUrl := [],
        imgUrl := (("https://img.example/p.jpg")).data } := by
  have h := (c7_watch_missing_video_ok
    { titleText := ((" My Movie ")).data, imgSrc := some ((("//img.example/p.jpg")).data),
      mp4Link := none, hlsLink := none }).1 (by decide) (by decide)
  exact h.trans (by decide)

/-- Claim C8: a protocol-relative image source gets `https:` prepended (so it
begins with `https://`), a source already beginning with `http` is left
unmodified, the spec's concrete example holds, and a relative detail link
is resolved by prefixing the catalog base origin, `/movie/123` yielding
`https://einthusan.tv/movie/123`; the watch extractor applies the same
image normalization. -/
theorem c8_link_image_normalization :
    (∀ rest : List Char, normalizeImg ('/' :: '/' :: rest) = (("https://")).data ++ rest)
  ∧ (∀ s : List Char, startsWith s ((("http")).data) = true → normalizeImg s = s)
  ∧ (normalizeImg ((("//cdn.example/x.jpg")).data) = (("https://cdn.example/x.jpg")).data)
  ∧ (∀ it : ListItem, (entryOfItem it).pageUrl = mainUrl ++ attrOrEmpty it.href)
  ∧ (∀ it : ListItem, it.href = some ((("/movie/123")).data) →
      (entryOfItem it).pageUrl = (("https://einthusan.tv/movie/123")).data)
  ∧ (∀ p : WatchPage, (scrapeWatchDetails p).imgUrl = normalizeImg (attrOrEmpty p.imgSrc)) := by
  refine ⟨?_, ?_, by decide, fun it => rfl, ?_, fun p => rfl⟩
  · intro rest
    simp [normalizeImg, startsWith]
  · intro s h
    cases s with
    | nil => simp [startsWith] at h
    | cons c cs =>
        simp only [startsWith, Bool.and_eq_true, decide_eq_true_eq] at h
        have hc : c = 'h' := h.1
        unfold normalizeImg
        rw [if_neg]
        simp [startsWith, hc]
  · intro it h
    simp [entryOfItem, h, attrOrEmpty, mainUrl]

/-- Witness for C8 at concrete inputs: an `https://…` source is unchanged
and a concrete item's relative link is resolved against the base origin. -/
theorem c8_link_image_normalization_witness :
    normalizeImg ((("https://already.example/a.png")).data) =
      (("https://already.example/a.png")).data
  ∧ (entryOfItem
        { titleText := (("T")).data,
          href := some ((("/movie/123")).data),
          imgSrc := none }).pageUrl = (("https://einthusan.tv/movie/123")).data :=
  ⟨c8_link_image_normalization.2.1 _ (by decide),
   c8_link_image_normalization.2.2.2.2.1 _ rfl⟩

/-- Claim C2: the Watch Extractor's endpoint rewrite replaces dotted-quad
substrings (bounded by word boundaries) by the fixed hostname
`cdn1.einthusan.io`, leaving the rest untouched: the spec's concrete
example maps `https://192.168.10.5/path/video.mp4` to
`https://cdn1.einthusan.io/path/video.mp4`; a string containing no
bounded dotted-quad substring is returned unchanged; and the executable
scanner deciding that containment agrees with the declarative reading. -/
theorem c2_dotted_quad_rewrite :
    ((scrapeWatchDetails quadExamplePage).videoUrl =
      (("https://cdn1.einthusan.io/path/video.mp4")).data)
  ∧ (∀ s : List Char, ¬ containsBoundedQuad s → replaceAllQuad s = s)
  ∧ (∀ s : List Char, containsBoundedQuad s ↔ scanHasQuad false s = true) := by
  refine ⟨by decide, ?_, ?_⟩
  · intro s h
    apply rqLoop_id
    cases hs : scanHasQuad false s
    · rfl
    · exact absurd (containsBoundedQuad_of_scan s hs) h
  · intro s
    constructor
    · rintro ⟨pre, q, suf, hq, heq, hlast, hsuf⟩
      rw [heq]
      exact scanHasQuad_of_decomp q suf hq hsuf pre false (fun _ => rfl) hlast
    · exact containsBoundedQuad_of_scan s

/-- Witness for C2: a URL without any dotted quad is left unchanged. -/
theorem c2_dotted_quad_rewrite_witness :
    replaceAllQuad ((("https://example.com/play.mp4")).data) =
      (("https://example.com/play.mp4")).data := by
  apply c2_dotted_quad_rewrite.2.1
  intro hc
  exact absurd ((c2_dotted_quad_rewrite.2.2 _).mp hc) (by decide)

/-- Claim C4: the Listing Extractor emits exactly the items whose trimmed
title is non-blank, in document order (it equals a filter-then-map of the
item list); every emitted entry has a non-empty title (so a blank-titled
item is never emitted, and skipping is not an error since extraction is
total); and an item with a non-blank trimmed title is always emitted,
regardless of a missing image source or detail link. -/
theorem c4_blank_title_skipped :
    ∀ items : List ListItem,
      (scrapeEinthusanItems items =
        (items.filter (fun it => !(trimSpace it.titleText).isEmpty)).map entryOfItem)
    ∧ (∀ e ∈ scrapeEinthusanItems items, e.title ≠ [])
    ∧ (∀ it ∈ items, ¬(trimSpace it.titleText).isEmpty →
        entryOfItem it ∈ scrapeEinthusanItems items) := by
  intro items
  have hmain : scrapeEinthusanItems items =
      (items.filter (fun it => !(trimSpace it.titleText).isEmpty)).map entryOfItem := by
    have h := scrapeListLoop_eq items []
    rw [List.nil_append] at h
    exact h
  refine ⟨hmain, ?_, ?_⟩
  · intro e he
    rw [hmain] at he
    obtain ⟨it, hit, hee⟩ := List.mem_map.mp he
    have hf := (List.mem_filter.mp hit).2
    intro hnil
    rw [← hee] at hnil
    simp only [entryOfItem] at hnil
    rw [hnil] at hf
    simp at hf
  · intro it hit hnb
    rw [hmain]
    exact List.mem_map.mpr ⟨it, List.mem_filter.mpr ⟨hit, by simpa using hnb⟩, rfl⟩

/-- Witness for C4: of two items, the blank-titled one is skipped and the
non-blank one — despite a missing link and image — is emitted. -/
theorem c4_blank_title_skipped_witness :
    entryOfItem { titleText := ((" Good ")).data, href := none, imgSrc := none } ∈
      scrapeEinthusanItems
        [{ titleText := (("  ")).data,
           href := some ((("/movie/1")).data),
           imgSrc := none },
         { titleText := ((" Good ")).data,
           href := none,
           imgSrc := none }] :=
  (c4_blank_title_skipped _).2.2 _ (by decide) (by decide)

/-- Claim C5: across the Browse, Actor, Genre, Decade and Year translators,
`&page=N` is appended exactly when `N > 1`; with page 1 nothing is
appended, and with page 2 exactly `&page=2` is appended. -/
theorem c5_page_append_iff :
    ∀ (language category actorCode action comedy romance storyline performance ratecount
        decade year : List Char) (page : Int),
      (1 < page →
        (browseTargetUrl language category page =
          browseBaseUrl language category ++ (("&page=")).data ++ intToChars page) ∧
        (actorsTargetUrl language actorCode page =
          actorsBaseUrl language actorCode ++ (("&page=")).data ++ intToChars page) ∧
        (genreTargetUrl language action comedy romance storyline performance ratecount page =
          genreBaseUrl language action comedy romance storyline performance ratecount ++
            (("&page=")).data ++ intToChars page) ∧
        (decadeTargetUrl language decade page =
          decadeBaseUrl language decade ++ (("&page=")).data ++ intToChars page) ∧
        (yearTargetUrl language year page =
          yearBaseUrl language year ++ (("&page=")).data ++ intToChars page))
    ∧ (¬ 1 < page →
        (browseTargetUrl language category page = browseBaseUrl language category) ∧
        (actorsTargetUrl language actorCode page = actorsBaseUrl language actorCode) ∧
        (genreTargetUrl language action comedy romance storyline performance ratecount page =
          genreBaseUrl language action comedy romance storyline performance ratecount) ∧
        (decadeTargetUrl language decade page = decadeBaseUrl language decade) ∧
        (yearTargetUrl language year page = yearBaseUrl language year))
    ∧ (browseTargetUrl language category 1 = browseBaseUrl language category)
    ∧ (browseTargetUrl language category 2 =
        browseBaseUrl language category ++ (("&page=2")).data) := by
  intro language category actorCode action comedy romance storyline performance ratecount
    decade year page
  refine ⟨?_, ?_, ?_, ?_⟩
  · intro h
    refine ⟨?_, ?_, ?_, ?_, ?_⟩ <;>
      simp [browseTargetUrl, actorsTargetUrl, genreTargetUrl, decadeTargetUrl,
        yearTargetUrl, appendPage, h]
  · intro h
    refine ⟨?_, ?_, ?_, ?_, ?_⟩ <;>
      simp [browseTargetUrl, actorsTargetUrl, genreTargetUrl, decadeTargetUrl,
        yearTargetUrl, appendPage, h]
  · show appendPage (browseBaseUrl language category) 1 = _
    unfold appendPage
    rw [if_neg (by norm_num)]
  · show appendPage (browseBaseUrl language category) 2 = _
    unfold appendPage
    rw [if_pos (by norm_num), List.append_assoc]
    congr 1

/-- Witness for C5: page 3 appends `&page=3` and page 0 appends nothing,
at concrete parameters. -/
theorem c5_page_append_iff_witness :
    (browseTargetUrl (("tamil")).data (("recent")).data 3 =
      browseBaseUrl (("tamil")).data (("recent")).data ++ (("&page=")).data ++ intToChars 3)
  ∧ (yearTargetUrl (("tamil")).data (("2025")).data 0 =
      yearBaseUrl (("tamil")).data (("2025")).data) :=
  ⟨((c5_page_append_iff (("tamil")).data (("recent")).data [] [] [] [] [] [] [] [] [] 3).1
      (by norm_num)).1,
   (((c5_page_append_iff (("tamil")).data [] [] [] [] [] [] [] [] [] (("2025")).data 0).2.1
      (by norm_num)).2.2.2.2)⟩

/-- Claim C9: the `/search` upstream URL is the base listing path plus the
language plus the query with every literal space replaced by `+` (exactly
that single substitution); a query with no spaces passes through
verbatim; and a non-empty search fetches exactly that URL. -/
theorem c9_search_space_to_plus :
    ∀ language query : List Char,
      (searchTargetUrl language query =
        mainUrl ++ (("/movie/results/?lang=")).data ++ language ++ (("&query=")).data ++
          query.map (fun c => if c = ' ' then '+' else c))
    ∧ (goReplaceAll query ([' ']) (['+']) =
        query.map (fun c => if c = ' ' then '+' else c))
    ∧ (' ' ∉ query → goReplaceAll query ([' ']) (['+']) = query)
    ∧ (∀ fetch : Fetcher, query ≠ [] →
        (searchHandler language query fetch).2 = [searchTargetUrl language query]) := by
  intro language query
  have hrepl : goReplaceAll query ([' ']) (['+']) =
      query.map (fun c => if c = ' ' then '+' else c) := by
    unfold goReplaceAll
    rw [if_neg (by simp)]
    exact raLoop_space query
  refine ⟨?_, hrepl, ?_, ?_⟩
  · unfold searchTargetUrl
    rw [hrepl]
  · intro hq
    rw [hrepl]
    exact map_space_id query hq
  · intro fetch hq
    simp only [searchHandler]
    rw [if_neg (by simpa [List.isEmpty_iff] using hq)]
    cases hf : fetch (searchTargetUrl language query) with
    | error e => simp [hf]
    | ok items => simp [hf]

/-- Witness for C9: the spaceless query `abc` passes through verbatim and
a concrete non-empty search fetches exactly its target URL. -/
theorem c9_search_space_to_plus_witness :
    (goReplaceAll ((("abc")).data) ([' ']) (['+']) = (("abc")).data)
  ∧ ((searchHandler (("tamil")).data (("abc")).data (fun _ => Except.ok [])).2 =
      [searchTargetUrl (("tamil")).data (("abc")).data]) :=
  ⟨(c9_search_space_to_plus (("tamil")).data (("abc")).data).2.2.1 (by decide),
   (c9_search_space_to_plus (("tamil")).data (("abc")).data).2.2.2 _ (by decide)⟩

/-- Claim C10: the `/language` handler lower-cases the category before use;
every value whose lower-cased form is not exactly `popular` selects the
recent-listing URL; and the response echoes the lower-cased category
verbatim, whatever the original value was. -/
theorem c10_browse_category_lowercase :
    ∀ (language : List Char) (categoryParam pageParam : Option (List Char)) (fetch : Fetcher),
      ((browseHandler language categoryParam pageParam fetch).2 =
        [browseTargetUrl language (toLowerGo (categoryParam.getD ((("recent")).data)))
          (goAtoi (pageParam.getD ((("1")).data)))])
    ∧ (toLowerGo (categoryParam.getD ((("recent")).data)) ≠ (("popular")).data →
        browseBaseUrl language (toLowerGo (categoryParam.getD ((("recent")).data))) =
          recentBaseUrl language)
    ∧ (∀ items : List ListItem,
        fetch (browseTargetUrl language (toLowerGo (categoryParam.getD ((("recent")).data)))
            (goAtoi (pageParam.getD ((("1")).data)))) = Except.ok items →
        (browseHandler language categoryParam pageParam fetch).1 =
          HandlerResult.ok
            { category := toLowerGo (categoryParam.getD ((("recent")).data)),
              hasMore := decide (0 < (scrapeEinthusanItems items).length),
              language := language,
              movies := scrapeEinthusanItems items,
              nextPage := goAtoi (pageParam.getD ((("1")).data)) + 1,
              page := goAtoi (pageParam.getD ((("1")).data)) }) := by
  intro language categoryParam pageParam fetch
  refine ⟨?_, ?_, ?_⟩
  · simp only [browseHandler]
    cases hf : fetch (browseTargetUrl language (toLowerGo (categoryParam.getD ((("recent")).data)))
        (goAtoi (pageParam.getD ((("1")).data)))) with
    | error e => simp [hf]
    | ok items => simp [hf]
  · intro h
    unfold browseBaseUrl
    rw [if_neg h]
  · intro items hf
    simp only [browseHandler]
    rw [hf]

/-- Witness for C10: the category `WEIRD` (outside `{recent, popular}`)
is lowered to `weird`, selects the recent listing, and is echoed. -/
theorem c10_browse_category_lowercase_witness :
    (browseBaseUrl (("tamil")).data (toLowerGo (("WEIRD")).data) =
      recentBaseUrl (("tamil")).data)
  ∧ ((browseHandler (("tamil")).data (some (("WEIRD")).data) none (fun _ => Except.ok [])).1 =
      HandlerResult.ok
        { category := (("weird")).data, hasMore := false, language := (("tamil")).data,
          movies := [], nextPage := 2, page := 1 }) := by
  constructor
  · exact (c10_browse_category_lowercase (("tamil")).data (some (("WEIRD")).data) none
      (fun _ => Except.ok [])).2.1 (by decide)
  · have h := (c10_browse_category_lowercase (("tamil")).data (some (("WEIRD")).data) none
      (fun _ => Except.ok [])).2.2 [] rfl
    exact h.trans (by decide)

end ThiraiGateway
